import Mathlib

/-!
Verification of the FinRo.ro content-agent pipeline (Node.js agents and the
shared utilities module).  Strings are modelled as sequences of Unicode
scalar characters (`String` in Lean, a wrapper around `List Char`); JS
string indices are modelled as character counts.  Machine 32-bit words are
modelled as `Nat` with explicit reduction modulo `2 ^ 32`.
-/

namespace FinRo

/-! ### Basic string helpers modelling JS string primitives -/

/-- Models `s.slice(0, n)` of JS for a nonnegative bound `n`: the first `n`
characters of `s` (all of `s` when it is shorter). -/
def strTake (s : String) (n : Nat) : String := String.mk (s.data.take n)

/-- Models `String.prototype.toLowerCase` as a character-wise lowercase map
(exact for the ASCII uppercase letters that occur in the agents' keyword
tables). -/
def jsToLower (s : String) : String := String.mk (s.data.map Char.toLower)

/-- Models `hay.includes(needle)` of JS: substring containment. -/
def strIncludes (hay needle : String) : Bool := decide (needle.data <:+: hay.data)

/-- One step of the model of `s.split(/\s+/)`: processing character `c`
in front of the split of the rest.  A non-whitespace character is prepended
to the first piece; a whitespace character opens a new (initially empty)
piece unless the following character is also whitespace, in which case the
run is merely extended. -/
def splitWsCons (c : Char) (cs : List Char) (r : List String) : List String :=
  if c.isWhitespace then
    match cs with
    | [] => "" :: r
    | c2 :: _ => if c2.isWhitespace then r else "" :: r
  else
    match r with
    | [] => [String.mk [c]]
    | p :: ps => String.mk (c :: p.data) :: ps

/-- Split of a character list at maximal whitespace runs, with the JS
`split(/\s+/)` boundary behaviour: an empty string splits to `[""]`, and
leading or trailing whitespace contributes an empty piece. -/
def splitWsList : List Char → List String
  | [] => [""]
  | c :: cs => splitWsCons c cs (splitWsList cs)

/-- Models `s.split(/\s+/)` of JS. -/
def jsSplitWs (s : String) : List String := splitWsList s.data

/-- Models `new Set(l)` followed by spreading back to an array: removes
duplicates keeping the first occurrence, preserving insertion order. -/
def dedupFirst (l : List String) : List String :=
  l.foldl (fun acc x => if acc.contains x then acc else acc ++ [x]) []

/-! ### MD5 (model of node `crypto.createHash("md5")` on UTF-8 input)

The shared utilities hash URLs with `crypto.createHash("md5").update(url)
.digest("hex")`.  We model the full MD5 algorithm (RFC 1321) over `Nat`
with explicit reduction modulo `2 ^ 32`. -/

/-- Truncation to a 32-bit word. -/
def w32 (n : Nat) : Nat := n % 4294967296

/-- 32-bit bitwise complement. -/
def wnot (x : Nat) : Nat := Nat.xor (w32 x) 4294967295

/-- 32-bit left rotation by `s` bits. -/
def rotl (x s : Nat) : Nat :=
  w32 (Nat.lor (Nat.shiftLeft (w32 x) s) (Nat.shiftRight (w32 x) (32 - s)))

/-- UTF-8 encoding of a character sequence as a byte list. -/
def utf8Bytes : List Char → List Nat
  | [] => []
  | c :: cs =>
    let v := c.toNat
    (if v < 128 then [v]
     else if v < 2048 then [192 + v / 64, 128 + v % 64]
     else if v < 65536 then [224 + v / 4096, 128 + v / 64 % 64, 128 + v % 64]
     else [240 + v / 262144, 128 + v / 4096 % 64, 128 + v / 64 % 64, 128 + v % 64])
      ++ utf8Bytes cs

/-- MD5 padding: append `0x80`, zero bytes up to 56 mod 64, then the
original bit length as 8 little-endian bytes. -/
def md5Pad (msg : List Nat) : List Nat :=
  let len := msg.length
  let zeros := (120 - (len + 1) % 64) % 64
  msg ++ [128] ++ List.replicate zeros 0
    ++ (List.range 8).map (fun i => 8 * len / 256 ^ i % 256)

/-- Chop a byte list into 64-byte blocks, accumulating the current partial
block in reverse.  The padded message length is a multiple of 64, so the
accumulator is empty at the end. -/
def toBlocks : List Nat → List Nat → List (List Nat)
  | [], acc => if acc.isEmpty then [] else [acc.reverse]
  | b :: rest, acc =>
    if acc.length == 63 then (b :: acc).reverse :: toBlocks rest []
    else toBlocks rest (b :: acc)

/-- Little-endian 32-bit words of a 64-byte block. -/
def blockWord (block : List Nat) (g : Nat) : Nat :=
  block.getD (4 * g) 0 + 256 * block.getD (4 * g + 1) 0
    + 65536 * block.getD (4 * g + 2) 0 + 16777216 * block.getD (4 * g + 3) 0

/-- The MD5 sine-derived round constants. -/
def md5K : List Nat :=
  [3614090360, 3905402710, 606105819, 3250441966, 4118548399, 1200080426,
   2821735955, 4249261313, 1770035416, 2336552879, 4294925233, 2304563134,
   1804603682, 4254626195, 2792965006, 1236535329, 4129170786, 3225465664,
   643717713, 3921069994, 3593408605, 38016083, 3634488961, 3889429448,
   568446438, 3275163606, 4107603335, 1163531501, 2850285829, 4243563512,
   1735328473, 2368359562, 4294588738, 2272392833, 1839030562, 4259657740,
   2763975236, 1272893353, 4139469664, 3200236656, 681279174, 3936430074,
   3572445317, 76029189, 3654602809, 3873151461, 530742520, 3299628645,
   4096336452, 1126891415, 2878612391, 4237533241, 1700485571, 2399980690,
   4293915773, 2240044497, 1873313359, 4264355552, 2734768916, 1309151649,
   4149444226, 3174756917, 718787259, 3951481745]

/-- The MD5 per-round left-rotation amounts. -/
def md5S : List Nat :=
  [7, 12, 17, 22, 7, 12, 17, 22, 7, 12, 17, 22, 7, 12, 17, 22,
   5, 9, 14, 20, 5, 9, 14, 20, 5, 9, 14, 20, 5, 9, 14, 20,
   4, 11, 16, 23, 4, 11, 16, 23, 4, 11, 16, 23, 4, 11, 16, 23,
   6, 10, 15, 21, 6, 10, 15, 21, 6, 10, 15, 21, 6, 10, 15, 21]

/-- The MD5 round functions F, G, H, I selected by the round index. -/
def md5F (b c d i : Nat) : Nat :=
  if i < 16 then Nat.lor (Nat.land b c) (Nat.land (wnot b) d)
  else if i < 32 then Nat.lor (Nat.land d b) (Nat.land (wnot d) c)
  else if i < 48 then Nat.xor b (Nat.xor c d)
  else Nat.xor c (Nat.lor b (wnot d))

/-- The MD5 message-word index for round `i`. -/
def md5G (i : Nat) : Nat :=
  if i < 16 then i
  else if i < 32 then (5 * i + 1) % 16
  else if i < 48 then (3 * i + 5) % 16
  else 7 * i % 16

/-- One MD5 round on the state `(a, b, c, d)`. -/
def md5Step (m : Nat → Nat) (st : Nat × Nat × Nat × Nat) (i : Nat) :
    Nat × Nat × Nat × Nat :=
  let (a, b, c, d) := st
  let f := w32 (md5F b c d i + a + md5K.getD i 0 + m (md5G i))
  (d, w32 (b + rotl f (md5S.getD i 0)), b, c)

/-- Process one 64-byte block, adding the round result to the chaining
state. -/
def md5Block (st : Nat × Nat × Nat × Nat) (block : List Nat) :
    Nat × Nat × Nat × Nat :=
  let (a, b, c, d) := (List.range 64).foldl (md5Step (blockWord block)) st
  (w32 (st.1 + a), w32 (st.2.1 + b), w32 (st.2.2.1 + c), w32 (st.2.2.2 + d))

/-- Lower-case hexadecimal digit for `n < 16`. -/
def hexDigitChar (n : Nat) : Char :=
  if n < 10 then Char.ofNat (48 + n) else Char.ofNat (87 + n)

/-- Two hexadecimal characters of a byte. -/
def byteHex (b : Nat) : List Char := [hexDigitChar (b / 16 % 16), hexDigitChar (b % 16)]

/-- Hexadecimal rendering of a 32-bit word, little-endian byte order as in
the MD5 digest. -/
def wordHexLE (w : Nat) : List Char :=
  ((List.range 4).map (fun i => w / 256 ^ i % 256)).flatMap byteHex

/-- The full MD5 hex digest of a string (UTF-8 encoded), 32 lower-case
hexadecimal characters. -/
def md5Hex (s : String) : String :=
  let msg := md5Pad (utf8Bytes s.data)
  let st := (toBlocks msg []).foldl md5Block (1732584193, 4023233417, 2562383102, 271733878)
  String.mk (wordHexLE st.1 ++ wordHexLE st.2.1 ++ wordHexLE st.2.2.1 ++ wordHexLE st.2.2.2)

/-- `hashUrl` from the shared utilities: the first 12 hex characters of the
MD5 digest of the URL (`crypto.createHash("md5").update(url).digest("hex")
.slice(0, 12)`). -/
def hashUrl (url : String) : String := strTake (md5Hex url) 12

/-! ### Fingerprint-set persistence (`loadSeen` / `saveSeen`) -/

/-- State of the persisted fingerprint file as seen by `loadSeen`: absent,
present but not valid JSON, or parsed JSON whose optional `hashes` field is
a string array. -/
inductive SeenFileState where
  | absent
  | corrupt
  | parsed (hashes : Option (List String))
deriving DecidableEq, Repr

/-- `loadSeen` from the shared utilities: returns `new Set(data.hashes || [])`
when the file exists and parses, and an empty set when the file is absent,
unreadable as JSON, or lacks a `hashes` field.  The JS `Set` is modelled as
a duplicate-free list in insertion order. -/
def loadSeenFile : SeenFileState → List String
  | .absent => []
  | .corrupt => []
  | .parsed none => []
  | .parsed (some hs) => dedupFirst hs

/-- Content of the JSON object written by `saveSeen`. -/
structure SeenJson where
  hashes : List String
  updated : String
deriving DecidableEq, Repr

/-- `saveSeen` from the shared utilities: writes the spread of the in-memory
set plus the current timestamp. -/
def saveSeenFile (seen : List String) (now : String) : SeenJson :=
  { hashes := seen, updated := now }

/-! ### Classifier (`detectSubcategory`) -/

/-- The per-label scores computed by `detectSubcategory`: each label of the
taxonomy is paired with the number of its keywords that occur (lower-cased)
as substrings of the lower-cased text. -/
def scoresOf (text : String) (subcategories : List (String × List String)) :
    List (String × Nat) :=
  let lower := jsToLower text
  subcategories.map
    (fun p => (p.1, (p.2.filter (fun kw => strIncludes lower (jsToLower kw))).length))

/-- `detectSubcategory` from the shared utilities: scores every label, sorts
the score entries descending by score with the stable `Array.prototype.sort`
(modelled by the stable `List.insertionSort`), and returns the top label if
its score is positive, else `"general"`. -/
def detectSubcategory (text : String) (subcategories : List (String × List String)) :
    String :=
  let scores := scoresOf text subcategories
  match (List.insertionSort (fun a b => b.2 ≤ a.2) scores).head? with
  | some best => if best.2 > 0 then best.1 else "general"
  | none => "general"

/-! ### Articles and SEO metadata (`generateMeta`, `saveArticleMeta`) -/

/-- The article object assembled by the finance agent; the four meta fields
are filled in by `generateMeta`. -/
structure Article where
  title : String
  slug : String
  url : String
  category : String
  subcategory : String
  subcategoryKeywords : List String
  published : String
  summary : String
  contentHtml : String
  sourceName : String
  author : String
  metaTitle : String := ""
  metaDescription : String := ""
  metaKeywords : List String := []
  readingTime : Nat := 0
  rating : Option String := none
deriving DecidableEq, Repr

/-- `generateMeta` from the shared utilities: derives `metaTitle`,
`metaDescription`, `metaKeywords` and `readingTime`, leaving every other
field of the article unchanged. -/
def generateMeta (article : Article) (baseKeywords : List String := []) : Article :=
  let metaTitle :=
    (if article.title.length > 60 then strTake article.title 57 ++ "..."
     else article.title) ++ " | FinRo.ro"
  let desc := if article.summary = "" then article.title else article.summary
  let metaDescription := if desc.length > 155 then strTake desc 152 ++ "..." else desc
  let catKw := article.subcategoryKeywords.take 4
  let metaKeywords := dedupFirst (baseKeywords ++ catKw)
  let words := (jsSplitWs (article.summary ++ " " ++ article.contentHtml)).length
  let readingTime := max 2 (words / 200)
  { article with metaTitle := metaTitle, metaDescription := metaDescription,
                 metaKeywords := metaKeywords, readingTime := readingTime }

/-- The flat per-article JSON record written by `saveArticleMeta`. -/
structure ArticleRecord where
  title : String
  slug : String
  category : String
  subcategory : String
  meta_title : String
  meta_description : String
  meta_keywords : List String
  author : String
  published : String
  reading_time : Nat
  source : String
  hash_id : String
  url : String
  rating : Option String
deriving DecidableEq, Repr

/-- `saveArticleMeta` from the shared utilities: the JSON record persisted
for an article, named by its fingerprint.  The `rating` field is included
only when the article has a truthy rating. -/
def saveArticleMeta (article : Article) (hashId : String) : ArticleRecord :=
  { title := article.title, slug := article.slug, category := article.category,
    subcategory := article.subcategory, meta_title := article.metaTitle,
    meta_description := article.metaDescription,
    meta_keywords := article.metaKeywords,
    author := if article.author = "" then "Echipa FinRo" else article.author,
    published := article.published, reading_time := article.readingTime,
    source := article.sourceName, hash_id := hashId,
    url := "/" ++ article.category ++ "/" ++ article.slug,
    rating := match article.rating with
              | none => none
              | some r => if r = "" then none else some r }

/-! ### Category index (`updateIndex`) -/

/-- The JSON object written to `index_<category>.json`. -/
structure CategoryIndex where
  category : String
  total : Nat
  updated : String
  articles : List ArticleRecord
deriving DecidableEq, Repr

/-- `updateIndex` from the shared utilities: parses every persisted
per-article record (a file that fails to parse is `none` and is skipped),
keeps those of the requested category, sorts descending by the `published`
string (stable `Array.prototype.sort` with a `localeCompare` comparator,
modelled by `List.insertionSort` with lexicographic string order), and
writes an index with the full count and the first 50 entries.  Returns the
index together with the returned count. -/
def updateIndex (category : String) (files : List (Option ArticleRecord))
    (now : String) : CategoryIndex × Nat :=
  let articles := (files.filterMap id).filter (fun a => a.category == category)
  let sorted := List.insertionSort (fun a b => b.published ≤ a.published) articles
  ({ category := category, total := sorted.length, updated := now,
     articles := sorted.take 50 }, sorted.length)

/-! ### The finance agent run (`agent_finance.js`) -/

/-- A normalized RSS entry as produced by `fetchRss`. -/
structure Entry where
  title : String
  url : String
  published : String
  summary : String
  sourceId : String
  sourceName : String
deriving DecidableEq, Repr

/-- The finance agent taxonomy `SUBCATEGORIES`, in declaration order. -/
def SUBCATEGORIES : List (String × List String) :=
  [("credite", ["credit", "credite", "ipotecar", "imobiliar", "dobândă", "IRCC",
                "ROBOR", "împrumut", "refinanțare"]),
   ("economisire", ["economii", "economisire", "depozit", "cont economii", "buget"]),
   ("investitii", ["investiți", "acțiuni", "obligațiuni", "ETF", "bursă", "BVB",
                   "portofoliu", "titluri de stat"]),
   ("taxe", ["taxe", "impozit", "ANAF", "declarația unică", "CAS", "CASS", "TVA",
             "fiscal", "PFA"]),
   ("pensii", ["pensie", "pilonul", "fond de pensii", "CNPP", "punct de pensie"])]

/-- `SUBCATEGORIES[subcategory] || []`: the keyword list of a label. -/
def subKeywords (sub : String) : List String :=
  ((SUBCATEGORIES.find? (fun p => p.1 == sub)).map Prod.snd).getD []

/-- Observable events of the per-entry loop of `run`, used to state in which
order the loop consults and updates the seen set. -/
inductive Ev where
  | invalid (title url : String)
  | skippedSeen (hash : String)
  | classified (hash sub : String)
  | added (hash : String)
deriving DecidableEq, Repr

/-- The classification step of the loop of `run`: the subcategory detected
for one entry from its title and summary. -/
def classifyEntry (e : Entry) : String :=
  detectSubcategory (e.title ++ " " ++ e.summary) SUBCATEGORIES

/-- The article built by the loop of `run` for an accepted entry: assembled
from the entry, classified, given scraped body text (empty on a dry run),
and enriched by `generateMeta`. -/
def acceptedArticle (scrape slugF : String → String) (dryRun : Bool) (e : Entry) :
    Article :=
  generateMeta
    { title := e.title, slug := strTake (slugF e.title) 80, url := e.url,
      category := "finante", subcategory := classifyEntry e,
      subcategoryKeywords := subKeywords (classifyEntry e),
      published := e.published, summary := e.summary,
      contentHtml := if dryRun then "" else scrape e.url,
      sourceName := e.sourceName, author := "Echipa FinRo" }
    ["finanțe personale", "România", "2025"]

/-- The per-entry loop of `run` in `agent_finance.js`.  `scrape` models
`scrapeContent` and `slugF` the external `slugify` library (both opaque
deterministic functions).  For each entry: entries with falsy title or URL
are skipped; an entry whose fingerprint is in the seen set is skipped;
otherwise the entry is classified, an article is built and enriched, the
pair is appended to the accepted list, the fingerprint is added to the seen
set, and the loop stops early once the accepted count reaches
`maxArticles`. -/
def processEntries (scrape slugF : String → String) (dryRun : Bool) (maxArticles : Nat) :
    List Entry → List String → List (Article × String) → List Ev →
      List (Article × String) × List String × List Ev
  | [], seen, acc, tr => (acc, seen, tr)
  | e :: rest, seen, acc, tr =>
    if e.title = "" ∨ e.url = "" then
      processEntries scrape slugF dryRun maxArticles rest seen acc
        (tr ++ [.invalid e.title e.url])
    else
      let h := hashUrl e.url
      if seen.contains h then
        processEntries scrape slugF dryRun maxArticles rest seen acc
          (tr ++ [.skippedSeen h])
      else
        let article := acceptedArticle scrape slugF dryRun e
        let acc2 := acc ++ [(article, h)]
        let seen2 := seen ++ [h]
        let tr2 := tr ++ [.classified h (classifyEntry e), .added h]
        if maxArticles ≤ acc2.length then (acc2, seen2, tr2)
        else processEntries scrape slugF dryRun maxArticles rest seen2 acc2 tr2

/-- The persisted state touched by one agent: its fingerprint file and the
per-article record files of the data directory (keyed by fingerprint;
enumeration order is modelled as creation order). -/
structure AgentState where
  seenFile : SeenFileState
  dataFiles : List (String × Option ArticleRecord)
deriving Repr

/-- Writing `article_<hash>.json`: overwrite the file if a file of the same
name exists, else create it. -/
def writeRecord (files : List (String × Option ArticleRecord))
    (entry : String × ArticleRecord) : List (String × Option ArticleRecord) :=
  if files.any (fun p => p.1 == entry.1) then
    files.map (fun p => if p.1 == entry.1 then (p.1, some entry.2) else p)
  else files ++ [(entry.1, some entry.2)]

/-- The observable outcome of one invocation of `run`.  `written` is the
list of per-article JSON records persisted by the run (empty for a dry
run). -/
structure RunResult where
  articles : List (Article × String)
  trace : List Ev
  seenAfter : List String
  written : List ArticleRecord
  savedSeen : Option SeenJson
  index : Option CategoryIndex
deriving Repr

/-- One invocation of `run` in `agent_finance.js`: load the seen set,
process all fetched entries, and — unless this is a dry run — write the
article records, save the seen set, and rebuild the `finante` index. -/
def runAgent (scrape slugF : String → String) (dryRun : Bool) (maxArticles : Nat)
    (now : String) (entries : List Entry) (st : AgentState) :
    RunResult × AgentState :=
  let seen0 := loadSeenFile st.seenFile
  let r := processEntries scrape slugF dryRun maxArticles entries seen0 [] []
  let arts := r.1
  let seen1 := r.2.1
  let tr := r.2.2
  if dryRun then
    ({ articles := arts, trace := tr, seenAfter := seen1, written := [],
       savedSeen := none, index := none }, st)
  else
    let recs := arts.map (fun p => (p.2, saveArticleMeta p.1 p.2))
    let files1 := recs.foldl writeRecord st.dataFiles
    let saved := saveSeenFile seen1 now
    let idx := updateIndex "finante" (files1.map Prod.snd) now
    ({ articles := arts, trace := tr, seenAfter := seen1,
       written := recs.map Prod.snd, savedSeen := some saved,
       index := some idx.1 },
     { seenFile := .parsed (some seen1), dataFiles := files1 })

/-- Parameters of one scheduled invocation of the agent. -/
structure RunSpec where
  dryRun : Bool
  maxArticles : Nat
  now : String
  entries : List Entry

/-- A chain of agent invocations threading the persisted state, returning
the final state together with every per-article record persisted across all
of the runs. -/
def runsAgent (scrape slugF : String → String) :
    AgentState → List RunSpec → AgentState × List ArticleRecord
  | st, [] => (st, [])
  | st, r :: rs =>
    let out := runAgent scrape slugF r.dryRun r.maxArticles r.now r.entries st
    let next := runsAgent scrape slugF out.2 rs
    (next.1, out.1.written ++ next.2)

/-! ### Spec-side definitions, used to state refinement claims -/

/-- The largest score in a score list (0 for the empty list). -/
def maxScore (l : List (String × Nat)) : Nat := l.foldr (fun p m => max p.2 m) 0

/-- The classifier as worded by the spec: the first-declared label whose
score equals the highest score, or `"general"` when the highest score is
0 (or the taxonomy is empty). -/
def classifySpec (text : String) (subcategories : List (String × List String)) :
    String :=
  let scores := scoresOf text subcategories
  match scores.find? (fun p => maxScore scores ≤ p.2) with
  | some best => if best.2 > 0 then best.1 else "general"
  | none => "general"

/-- Lower-case hexadecimal character predicate. -/
def isHexChar (c : Char) : Bool := c.isDigit || (97 ≤ c.toNat && c.toNat ≤ 102)

/-- The records of the requested category among the parsed data-store files,
in store order (corrupt files are skipped). -/
def keptRecords (category : String) (files : List (Option ArticleRecord)) :
    List ArticleRecord :=
  (files.filterMap id).filter (fun a => a.category == category)

/-! ### Concrete inputs used by scenarios, witnesses and counterexamples -/

/-- An article with every text field empty. -/
def emptyArticle : Article :=
  { title := "", slug := "", url := "", category := "", subcategory := "",
    subcategoryKeywords := [], published := "", summary := "", contentHtml := "",
    sourceName := "", author := "" }

/-- A concrete finance entry (fingerprint `ecd05f97b3e7`). -/
def entryA : Entry :=
  { title := "Dobândă nouă", url := "https://x.ro/1",
    published := "2025-01-01T06:00:00Z", summary := "credit ipotecar",
    sourceId := "bnr", sourceName := "BNR" }

/-- A second concrete finance entry (fingerprint `a70b45ee7ee2`). -/
def entryB : Entry :=
  { title := "TVA schimbat", url := "https://x.ro/2",
    published := "2025-01-02T06:00:00Z", summary := "ANAF",
    sourceId := "zf", sourceName := "ZF" }

/-- Fresh persisted state: no seen file and no data files. -/
def emptyState : AgentState := { seenFile := .absent, dataFiles := [] }

/-- Persisted state whose fingerprint file already holds the fingerprint of
`entryA`. -/
def seededState : AgentState :=
  { seenFile := .parsed (some ["ecd05f97b3e7"]), dataFiles := [] }

/-- A persisted record of the `finante` category, for the index scenario. -/
def scenarioRecA : ArticleRecord :=
  { title := "a", slug := "a", category := "finante", subcategory := "credite",
    meta_title := "a", meta_description := "a", meta_keywords := [],
    author := "Echipa FinRo", published := "2025-01-01", reading_time := 2,
    source := "BNR", hash_id := "h", url := "/finante/a", rating := none }

/-- A persisted record of another category, for the index scenario. -/
def scenarioRecB : ArticleRecord :=
  { scenarioRecA with category := "asigurari", url := "/asigurari/a" }

/-- Sixty parsed records of the `finante` category and ten of another
category. -/
def scenarioFiles : List (Option ArticleRecord) :=
  List.replicate 60 (some scenarioRecA) ++ List.replicate 10 (some scenarioRecB)

/-! ## Helper lemmas -/

theorem strlen_append (s t : String) : (s ++ t).length = s.length + t.length := by
  simp

theorem strTake_length (s : String) (n : Nat) :
    (strTake s n).length = min n s.length :=
  List.length_take n s.data

theorem dedup_go_mem (l : List String) :
    ∀ (acc : List String) (x : String),
      x ∈ l.foldl (fun acc y => if acc.contains y then acc else acc ++ [y]) acc ↔
        x ∈ acc ∨ x ∈ l := by
  induction l with
  | nil => intro acc x; simp
  | cons y t ih =>
    intro acc x
    rw [List.foldl_cons, ih]
    by_cases hy : acc.contains y
    · simp only [if_pos hy]
      replace hy : y ∈ acc := by simpa using hy
      constructor
      · rintro (h | h)
        · exact Or.inl h
        · exact Or.inr (List.mem_cons_of_mem y h)
      · rintro (h | h)
        · exact Or.inl h
        · rcases List.mem_cons.mp h with rfl | h
          · exact Or.inl hy
          · exact Or.inr h
    · simp only [if_neg hy, List.mem_append, List.mem_singleton, List.mem_cons]
      tauto

theorem mem_dedupFirst (l : List String) (x : String) :
    x ∈ dedupFirst l ↔ x ∈ l := by
  rw [dedupFirst, dedup_go_mem]; simp

theorem dedup_go_nodup (l : List String) :
    ∀ acc : List String,
      acc.Nodup →
      (l.foldl (fun acc y => if acc.contains y then acc else acc ++ [y]) acc).Nodup := by
  induction l with
  | nil => intro acc h; simpa using h
  | cons y t ih =>
    intro acc h
    rw [List.foldl_cons]
    by_cases hy : acc.contains y
    · rw [if_pos hy]; exact ih acc h
    · rw [if_neg hy]
      refine ih _ ?_
      replace hy : y ∉ acc := by simpa using hy
      simp [List.nodup_append, h, hy]

theorem dedupFirst_nodup (l : List String) : (dedupFirst l).Nodup :=
  dedup_go_nodup l [] List.nodup_nil

theorem dedup_go_eq (l : List String) :
    ∀ acc : List String,
      (acc ++ l).Nodup →
      l.foldl (fun acc y => if acc.contains y then acc else acc ++ [y]) acc = acc ++ l := by
  induction l with
  | nil => intro acc _; simp
  | cons y t ih =>
    intro acc h
    have hy : y ∉ acc := by
      intro hmem
      have := (List.nodup_append.mp h).2.2
      exact this hmem (List.mem_cons_self y t)
    have hyc : acc.contains y = false := by
      simpa using hy
    rw [List.foldl_cons, hyc]
    simp only [Bool.false_eq_true, if_false]
    have h2 : ((acc ++ [y]) ++ t).Nodup := by
      simpa [List.append_assoc] using h
    rw [ih (acc ++ [y]) h2]
    simp

theorem dedupFirst_eq_self (l : List String) (h : l.Nodup) : dedupFirst l = l := by
  rw [dedupFirst, dedup_go_eq l [] (by simpa using h)]
  simp

theorem loadSeenFile_nodup (st : SeenFileState) : (loadSeenFile st).Nodup := by
  cases st with
  | absent => exact List.nodup_nil
  | corrupt => exact List.nodup_nil
  | parsed o =>
    cases o with
    | none => exact List.nodup_nil
    | some hs => exact dedupFirst_nodup hs

/-! ## C4 — meta title and description -/

theorem generateMeta_metaTitle (a : Article) (kws : List String) :
    (generateMeta a kws).metaTitle =
      (if a.title.length > 60 then strTake a.title 57 ++ "..." else a.title)
        ++ " | FinRo.ro" := rfl

theorem generateMeta_metaDescription (a : Article) (kws : List String) :
    (generateMeta a kws).metaDescription =
      (let desc := if a.summary = "" then a.title else a.summary
       if desc.length > 155 then strTake desc 152 ++ "..." else desc) := rfl

/-- C4: `metaTitle` is the title plus the fixed suffix when the title has at
most 60 characters and otherwise its first 57 characters plus an ellipsis
plus the suffix, and is never longer than 60 plus the suffix length;
`metaDescription` is the summary (the title when the summary is empty),
truncated to its first 152 characters plus an ellipsis when longer than
155 characters, and is never longer than 155. -/
theorem generateMeta_meta_bounds (a : Article) (kws : List String) :
    ((generateMeta a kws).metaTitle =
      (if a.title.length ≤ 60 then a.title ++ " | FinRo.ro"
       else strTake a.title 57 ++ "..." ++ " | FinRo.ro")) ∧
    (generateMeta a kws).metaTitle.length ≤ 60 + (" | FinRo.ro" : String).length ∧
    ((generateMeta a kws).metaDescription =
      (if (if a.summary = "" then a.title else a.summary).length ≤ 155 then
        (if a.summary = "" then a.title else a.summary)
       else strTake (if a.summary = "" then a.title else a.summary) 152 ++ "...")) ∧
    (generateMeta a kws).metaDescription.length ≤ 155 := by
  have hT := generateMeta_metaTitle a kws
  have hD := generateMeta_metaDescription a kws
  refine ⟨?_, ?_, ?_, ?_⟩
  · rw [hT]
    by_cases h : a.title.length ≤ 60
    · rw [if_pos h, if_neg (by omega)]
    · rw [if_neg h, if_pos (by omega), String.append_assoc]
  · rw [hT]
    by_cases h : a.title.length > 60
    · rw [if_pos h, strlen_append, strlen_append, strTake_length]
      have : min 57 a.title.length = 57 := by omega
      rw [this]; decide
    · rw [if_neg h, strlen_append]
      omega
  · rw [hD]
    by_cases h : (if a.summary = "" then a.title else a.summary).length ≤ 155
    · rw [if_pos h, if_neg (by omega)]
    · rw [if_neg h, if_pos (by omega)]
  · rw [hD]
    by_cases h : (if a.summary = "" then a.title else a.summary).length > 155
    · rw [if_pos h, strlen_append, strTake_length]
      have : min 152 (if a.summary = "" then a.title else a.summary).length = 152 := by
        omega
      rw [this]; decide
    · rw [if_neg h]
      omega

/-! ## C6 — reading time -/

/-- C6: `readingTime` is the word count of `summary + " " + body`, split at
whitespace runs, divided by 200 and clamped to a minimum of 2; hence every
article (including one with empty summary and body) gets a reading time of
at least 2 minutes. -/
theorem generateMeta_readingTime (a : Article) (kws : List String) :
    (generateMeta a kws).readingTime =
      max 2 ((jsSplitWs (a.summary ++ " " ++ a.contentHtml)).length / 200) ∧
    2 ≤ (generateMeta a kws).readingTime ∧
    (generateMeta emptyArticle []).readingTime = 2 := by
  refine ⟨rfl, ?_, rfl⟩
  show 2 ≤ max 2 _
  exact Nat.le_max_left 2 _

/-! ## C10 — generateMeta frame property -/

/-- C10: `generateMeta` returns the updated article itself (modelled as
state passing); every field other than `metaTitle`, `metaDescription`,
`metaKeywords` and `readingTime` is unchanged. -/
theorem generateMeta_frame (a : Article) (kws : List String) :
    (generateMeta a kws).title = a.title ∧
    (generateMeta a kws).slug = a.slug ∧
    (generateMeta a kws).url = a.url ∧
    (generateMeta a kws).category = a.category ∧
    (generateMeta a kws).subcategory = a.subcategory ∧
    (generateMeta a kws).subcategoryKeywords = a.subcategoryKeywords ∧
    (generateMeta a kws).published = a.published ∧
    (generateMeta a kws).summary = a.summary ∧
    (generateMeta a kws).contentHtml = a.contentHtml ∧
    (generateMeta a kws).sourceName = a.sourceName ∧
    (generateMeta a kws).author = a.author ∧
    (generateMeta a kws).rating = a.rating :=
  ⟨rfl, rfl, rfl, rfl, rfl, rfl, rfl, rfl, rfl, rfl, rfl, rfl⟩

/-! ## C8 — loadSeen error handling -/

/-- C8: loading the fingerprint set returns exactly the stored hashes when
the file exists and parses, and the empty set when the file is absent, is
not valid JSON, or lacks a `hashes` field.  The function is total, so no
case raises an error. -/
theorem loadSeen_spec (hs : List String) (h : String) :
    (h ∈ loadSeenFile (.parsed (some hs)) ↔ h ∈ hs) ∧
    loadSeenFile (.parsed none) = [] ∧
    loadSeenFile .absent = [] ∧
    loadSeenFile .corrupt = [] :=
  ⟨mem_dedupFirst hs h, rfl, rfl, rfl⟩

/-! ## C9 — fingerprint function -/

theorem wordHexLE_length (w : Nat) : (wordHexLE w).length = 8 := rfl

theorem mem_wordHexLE_hex (w : Nat) (c : Char) (h : c ∈ wordHexLE w) :
    isHexChar c := by
  have hx : ∀ n : Nat, n < 16 → isHexChar (hexDigitChar n) := by
    intro n hn; interval_cases n <;> decide
  have h16 : ∀ m : Nat, m % 16 < 16 := fun m => Nat.mod_lt m (by omega)
  simp only [wordHexLE, byteHex, List.range_succ, List.range_zero,
    List.nil_append, List.map_cons, List.map_nil, List.flatMap_cons,
    List.flatMap_nil, List.append_nil, List.cons_append, List.mem_cons,
    List.not_mem_nil, or_false] at h
  rcases h with rfl | rfl | rfl | rfl | rfl | rfl | rfl | rfl <;>
    exact hx _ (h16 _)

theorem md5Hex_length (s : String) : (md5Hex s).length = 32 := by
  rw [md5Hex]
  show (wordHexLE _ ++ wordHexLE _ ++ wordHexLE _ ++ wordHexLE _).length = 32
  simp [wordHexLE_length]

theorem mem_md5Hex_hex (s : String) (c : Char) (h : c ∈ (md5Hex s).data) :
    isHexChar c := by
  rw [md5Hex] at h
  have h2 : c ∈ wordHexLE _ ++ wordHexLE _ ++ wordHexLE _ ++ wordHexLE _ := h
  simp only [List.mem_append] at h2
  rcases h2 with ((h2 | h2) | h2) | h2 <;> exact mem_wordHexLE_hex _ c h2

set_option maxRecDepth 200000 in
/-- C9: the fingerprint of a URL is the first 12 hexadecimal characters of
its MD5 digest; it is a pure function of the URL, always 12 lower-case hex
characters long, and on `"https://example.ro/a"` it is the 12-character
string `"66389231b7e4"` on every call. -/
theorem hashUrl_spec :
    (∀ url, hashUrl url = strTake (md5Hex url) 12) ∧
    (∀ url, (hashUrl url).length = 12 ∧ ∀ c ∈ (hashUrl url).data, isHexChar c) ∧
    hashUrl "https://example.ro/a" = "66389231b7e4" := by
  refine ⟨fun _ => rfl, fun url => ⟨?_, ?_⟩, ?_⟩
  · rw [hashUrl, strTake_length, md5Hex_length]; decide
  · intro c hc
    exact mem_md5Hex_hex url c (List.mem_of_mem_take hc)
  · decide

/-! ## C3 — classifier -/


theorem le_maxScore (l : List (String × Nat)) (p : String × Nat) (h : p ∈ l) :
    p.2 ≤ maxScore l := by
  induction l with
  | nil => cases h
  | cons x t ih =>
    rcases List.mem_cons.mp h with rfl | h
    · exact Nat.le_max_left _ _
    · exact le_trans (ih h) (Nat.le_max_right _ _)

theorem head_insertionSort (l : List (String × Nat)) :
    (List.insertionSort (fun a b => b.2 ≤ a.2) l).head? =
      l.find? (fun p => maxScore l ≤ p.2) := by
  induction l with
  | nil => rfl
  | cons x t ih =>
    rcases hs : List.insertionSort (fun a b => b.2 ≤ a.2) t with _ | ⟨b, s⟩
    · have hperm := List.perm_insertionSort (fun a b : String × Nat => b.2 ≤ a.2) t
      rw [hs] at hperm
      have ht : t = [] := List.Perm.eq_nil hperm.symm
      subst ht
      simp [List.insertionSort, List.orderedInsert, maxScore, List.find?]
    · have hperm := List.perm_insertionSort (fun a b : String × Nat => b.2 ≤ a.2) t
      have hbmem : b ∈ t := by
        rw [hs] at hperm
        exact hperm.mem_iff.mp (List.mem_cons_self b s)
      have ihb : t.find? (fun p => maxScore t ≤ p.2) = some b := by
        rw [← ih, hs]; rfl
      have hble : maxScore t ≤ b.2 := by
        have := List.find?_some ihb
        simpa using this
      have hbmax : b.2 = maxScore t := le_antisymm (le_maxScore t b hbmem) hble
      rw [List.insertionSort, hs]
      by_cases hc : b.2 ≤ x.2
      · have hmx : maxScore (x :: t) = x.2 := by
          show max x.2 (maxScore t) = x.2
          omega
        rw [List.orderedInsert, if_pos hc]
        rw [List.find?_cons_of_pos _ (by simp [hmx])]
        rfl
      · have hmx : maxScore (x :: t) = maxScore t := by
          show max x.2 (maxScore t) = maxScore t
          omega
        rw [List.orderedInsert, if_neg hc]
        rw [List.find?_cons_of_neg _ (by simp [hmx]; omega)]
        rw [hmx, ihb]
        rfl

/-- C3: the classifier equals, on every text and taxonomy, the spec-side
selection: score each label by the number of its keywords occurring
case-insensitively as substrings of the lower-cased text (each keyword at
most once), return the first-declared label attaining the highest score, or
`"general"` when that score is 0; on the given Romanian sample it returns
`"credite"`. -/
theorem detectSubcategory_spec :
    (∀ text subcategories,
      detectSubcategory text subcategories = classifySpec text subcategories) ∧
    detectSubcategory "BNR anunță o nouă dobândă de referință"
      [("credite", ["credit", "dobândă"]), ("taxe", ["ANAF", "TVA"])] = "credite" := by
  constructor
  · intro text subcategories
    simp only [detectSubcategory, classifySpec]
    rw [head_insertionSort]
  · decide

/-! ## C5 — index builder -/


instance : IsTotal ArticleRecord (fun a b => b.published ≤ a.published) :=
  ⟨fun a b => le_total b.published a.published⟩

instance : IsTrans ArticleRecord (fun a b => b.published ≤ a.published) :=
  ⟨fun _ _ _ h1 h2 => le_trans h2 h1⟩

theorem updateIndex_eq (category : String) (files : List (Option ArticleRecord))
    (now : String) :
    updateIndex category files now =
      ({ category := category,
         total := (List.insertionSort (fun a b => b.published ≤ a.published)
           (keptRecords category files)).length,
         updated := now,
         articles := (List.insertionSort (fun a b => b.published ≤ a.published)
           (keptRecords category files)).take 50 },
       (List.insertionSort (fun a b => b.published ≤ a.published)
         (keptRecords category files)).length) := rfl

/-- C5: rebuilding a category index keeps exactly the parsed records of the
category (records failing to parse are skipped), reports the full matching
count both in the `total` field and as the return value, sorts descending
by the `published` string, and lists only the first 50 records after
sorting, each drawn from the matching records; with 60 matching records and
10 of other categories, `total` is 60 and the list has 50 entries. -/
theorem updateIndex_spec :
    (∀ category files now,
      (updateIndex category files now).1.category = category ∧
      (updateIndex category files now).1.total = (keptRecords category files).length ∧
      (updateIndex category files now).2 = (keptRecords category files).length ∧
      (updateIndex category files now).1.articles.length =
        min 50 (keptRecords category files).length ∧
      List.Pairwise (fun a b : ArticleRecord => b.published ≤ a.published)
        (updateIndex category files now).1.articles ∧
      (∀ a ∈ (updateIndex category files now).1.articles, a ∈ keptRecords category files)) ∧
    (updateIndex "finante" scenarioFiles "T").1.total = 60 ∧
    (updateIndex "finante" scenarioFiles "T").1.articles.length = 50 ∧
    (updateIndex "finante" scenarioFiles "T").2 = 60 := by
  have hlen : ∀ category files,
      (List.insertionSort (fun a b : ArticleRecord => b.published ≤ a.published)
        (keptRecords category files)).length = (keptRecords category files).length :=
    fun category files => (List.perm_insertionSort _ _).length_eq
  have main : ∀ category files now,
      (updateIndex category files now).1.category = category ∧
      (updateIndex category files now).1.total = (keptRecords category files).length ∧
      (updateIndex category files now).2 = (keptRecords category files).length ∧
      (updateIndex category files now).1.articles.length =
        min 50 (keptRecords category files).length ∧
      List.Pairwise (fun a b : ArticleRecord => b.published ≤ a.published)
        (updateIndex category files now).1.articles ∧
      (∀ a ∈ (updateIndex category files now).1.articles, a ∈ keptRecords category files) := by
    intro category files now
    rw [updateIndex_eq]
    refine ⟨rfl, hlen _ _, hlen _ _, ?_, ?_, ?_⟩
    · rw [List.length_take, hlen]
    · exact (List.sorted_insertionSort _ _).sublist (List.take_sublist _ _)
    · intro a ha
      exact (List.perm_insertionSort _ _).mem_iff.mp (List.mem_of_mem_take ha)
  refine ⟨main, ?_, ?_, ?_⟩
  · rw [(main "finante" scenarioFiles "T").2.1]
    decide
  · rw [(main "finante" scenarioFiles "T").2.2.2.1]
    decide
  · rw [(main "finante" scenarioFiles "T").2.2.1]
    decide

/-! ## Loop invariants of the per-entry loop -/

section ProcessEntries

variable (scrape slugF : String → String) (dryRun : Bool) (maxA : Nat)

theorem pe_seen_mono :
    ∀ (entries : List Entry) (seen : List String) (acc : List (Article × String))
      (tr : List Ev) (h : String), h ∈ seen →
      h ∈ (processEntries scrape slugF dryRun maxA entries seen acc tr).2.1 := by
  intro entries
  induction entries with
  | nil => intro seen acc tr h hmem; exact hmem
  | cons e rest ih =>
    intro seen acc tr h hmem
    simp only [processEntries]
    split_ifs with h1 h2 h3
    · exact ih _ _ _ h hmem
    · exact ih _ _ _ h hmem
    · exact List.mem_append_left _ hmem
    · exact ih _ _ _ h (List.mem_append_left _ hmem)

theorem pe_trace_mono :
    ∀ (entries : List Entry) (seen : List String) (acc : List (Article × String))
      (tr : List Ev),
      ∃ u, (processEntries scrape slugF dryRun maxA entries seen acc tr).2.2 = tr ++ u := by
  intro entries
  induction entries with
  | nil => intro seen acc tr; exact ⟨[], by simp [processEntries]⟩
  | cons e rest ih =>
    intro seen acc tr
    simp only [processEntries]
    split_ifs with h1 h2 h3
    · obtain ⟨u, hu⟩ := ih seen acc (tr ++ [.invalid e.title e.url])
      exact ⟨[Ev.invalid e.title e.url] ++ u, by rw [hu, List.append_assoc]⟩
    · obtain ⟨u, hu⟩ := ih seen acc (tr ++ [.skippedSeen (hashUrl e.url)])
      exact ⟨[Ev.skippedSeen (hashUrl e.url)] ++ u, by rw [hu, List.append_assoc]⟩
    · exact ⟨[Ev.classified (hashUrl e.url) (classifyEntry e), Ev.added (hashUrl e.url)], rfl⟩
    · obtain ⟨u, hu⟩ := ih _ _ _
      exact ⟨[Ev.classified (hashUrl e.url) (classifyEntry e), Ev.added (hashUrl e.url)] ++ u,
        by rw [hu, List.append_assoc]⟩

theorem pe_articles :
    ∀ (entries : List Entry) (seen : List String) (acc : List (Article × String))
      (tr : List Ev) (p : Article × String),
      p ∈ (processEntries scrape slugF dryRun maxA entries seen acc tr).1 →
      p ∈ acc ∨ (p.2 ∉ seen ∧
        p.2 ∈ (processEntries scrape slugF dryRun maxA entries seen acc tr).2.1) := by
  intro entries
  induction entries with
  | nil => intro seen acc tr p hp; exact Or.inl hp
  | cons e rest ih =>
    intro seen acc tr p hp
    simp only [processEntries] at hp ⊢
    split_ifs with h1 h2 h3
    · rw [if_pos h1] at hp
      exact ih _ _ _ p hp
    · rw [if_neg h1, if_pos h2] at hp
      exact ih _ _ _ p hp
    · rw [if_neg h1, if_neg h2, if_pos h3] at hp
      have hns : hashUrl e.url ∉ seen := by simpa using h2
      rcases List.mem_append.mp hp with hin | hone
      · exact Or.inl hin
      · have hpe : p = (acceptedArticle scrape slugF dryRun e, hashUrl e.url) :=
          List.mem_singleton.mp hone
        subst hpe
        exact Or.inr ⟨hns, List.mem_append_right _ (List.mem_singleton.mpr rfl)⟩
    · rw [if_neg h1, if_neg h2, if_neg h3] at hp
      have hns : hashUrl e.url ∉ seen := by simpa using h2
      rcases ih _ _ _ p hp with hin | ⟨hn2, hi⟩
      · rcases List.mem_append.mp hin with hin2 | hone
        · exact Or.inl hin2
        · have hpe : p = (acceptedArticle scrape slugF dryRun e, hashUrl e.url) :=
            List.mem_singleton.mp hone
          subst hpe
          refine Or.inr ⟨hns, ?_⟩
          exact pe_seen_mono scrape slugF dryRun maxA rest _ _ _ _
            (List.mem_append_right _ (List.mem_singleton.mpr rfl))
      · exact Or.inr ⟨fun hmem => hn2 (List.mem_append_left _ hmem), hi⟩

theorem pe_seen_nodup :
    ∀ (entries : List Entry) (seen : List String) (acc : List (Article × String))
      (tr : List Ev), seen.Nodup →
      (processEntries scrape slugF dryRun maxA entries seen acc tr).2.1.Nodup := by
  intro entries
  induction entries with
  | nil => intro seen acc tr h; exact h
  | cons e rest ih =>
    intro seen acc tr h
    simp only [processEntries]
    split_ifs with h1 h2 h3
    · exact ih _ _ _ h
    · exact ih _ _ _ h
    · have hns : hashUrl e.url ∉ seen := by simpa using h2
      simp [List.nodup_append, h, hns]
    · have hns : hashUrl e.url ∉ seen := by simpa using h2
      exact ih _ _ _ (by simp [List.nodup_append, h, hns])

theorem pe_arts_nodup :
    ∀ (entries : List Entry) (seen : List String) (acc : List (Article × String))
      (tr : List Ev), ((acc.map Prod.snd).Nodup) → (∀ p ∈ acc, p.2 ∈ seen) →
      ((processEntries scrape slugF dryRun maxA entries seen acc tr).1.map Prod.snd).Nodup := by
  intro entries
  induction entries with
  | nil => intro seen acc tr h _; exact h
  | cons e rest ih =>
    intro seen acc tr h hsub
    simp only [processEntries]
    split_ifs with h1 h2 h3
    · exact ih _ _ _ h hsub
    · exact ih _ _ _ h hsub
    · have hns : hashUrl e.url ∉ seen := by simpa using h2
      have hna : hashUrl e.url ∉ acc.map Prod.snd := by
        intro hmem
        rcases List.mem_map.mp hmem with ⟨p, hp, hp2⟩
        exact hns (hp2 ▸ hsub p hp)
      simp [List.nodup_append, h, hna]
    · have hns : hashUrl e.url ∉ seen := by simpa using h2
      have hna : hashUrl e.url ∉ acc.map Prod.snd := by
        intro hmem
        rcases List.mem_map.mp hmem with ⟨p, hp, hp2⟩
        exact hns (hp2 ▸ hsub p hp)
      refine ih _ _ _ (by simp [List.nodup_append, h, hna]) ?_
      intro p hp
      rcases List.mem_append.mp hp with hin | hone
      · exact List.mem_append_left _ (hsub p hin)
      · have hpe : p = (acceptedArticle scrape slugF dryRun e, hashUrl e.url) :=
          List.mem_singleton.mp hone
        subst hpe
        exact List.mem_append_right _ (List.mem_singleton.mpr rfl)

theorem pe_complete :
    ∀ (entries : List Entry) (seen : List String) (acc : List (Article × String))
      (tr : List Ev),
      (processEntries scrape slugF dryRun maxA entries seen acc tr).1.length < maxA →
      ∀ e ∈ entries, e.title ≠ "" → e.url ≠ "" →
        hashUrl e.url ∈ (processEntries scrape slugF dryRun maxA entries seen acc tr).2.1 := by
  intro entries
  induction entries with
  | nil => intro seen acc tr _ e he; cases he
  | cons e0 rest ih =>
    intro seen acc tr hlen e he ht hu
    simp only [processEntries] at hlen ⊢
    split_ifs with h1 h2 h3
    · rw [if_pos h1] at hlen
      rcases List.mem_cons.mp he with rfl | he2
      · exact absurd h1 (by simp [ht, hu])
      · exact ih _ _ _ hlen e he2 ht hu
    · rw [if_neg h1, if_pos h2] at hlen
      rcases List.mem_cons.mp he with rfl | he2
      · exact pe_seen_mono scrape slugF dryRun maxA rest _ _ _ _ (by simpa using h2)
      · exact ih _ _ _ hlen e he2 ht hu
    · rw [if_neg h1, if_neg h2, if_pos h3] at hlen
      exact absurd hlen (by simp only [not_lt]; exact h3)
    · rw [if_neg h1, if_neg h2, if_neg h3] at hlen
      rcases List.mem_cons.mp he with rfl | he2
      · exact pe_seen_mono scrape slugF dryRun maxA rest _ _ _ _
          (List.mem_append_right _ (List.mem_singleton.mpr rfl))
      · exact ih _ _ _ hlen e he2 ht hu

theorem pe_stasis :
    ∀ (entries : List Entry) (seen : List String) (acc : List (Article × String))
      (tr : List Ev),
      (∀ e ∈ entries, e.title = "" ∨ e.url = "" ∨ hashUrl e.url ∈ seen) →
      (processEntries scrape slugF dryRun maxA entries seen acc tr).1 = acc ∧
      (processEntries scrape slugF dryRun maxA entries seen acc tr).2.1 = seen := by
  intro entries
  induction entries with
  | nil => intro seen acc tr _; exact ⟨rfl, rfl⟩
  | cons e rest ih =>
    intro seen acc tr hall
    simp only [processEntries]
    split_ifs with h1 h2 h3
    · exact ih _ _ _ (fun e2 he2 => hall e2 (List.mem_cons_of_mem e he2))
    · exact ih _ _ _ (fun e2 he2 => hall e2 (List.mem_cons_of_mem e he2))
    · exfalso
      rcases hall e (List.mem_cons_self e rest) with h | h | h
      · exact h1 (Or.inl h)
      · exact h1 (Or.inr h)
      · exact h2 (by simpa using h)
    · exfalso
      rcases hall e (List.mem_cons_self e rest) with h | h | h
      · exact h1 (Or.inl h)
      · exact h1 (Or.inr h)
      · exact h2 (by simpa using h)

theorem pe_adjacent :
    ∀ (entries : List Entry) (seen : List String) (acc : List (Article × String))
      (tr : List Ev) (p : Article × String),
      p ∈ (processEntries scrape slugF dryRun maxA entries seen acc tr).1 →
      p ∈ acc ∨ ∃ sub, [Ev.classified p.2 sub, Ev.added p.2] <:+:
        (processEntries scrape slugF dryRun maxA entries seen acc tr).2.2 := by
  intro entries
  induction entries with
  | nil => intro seen acc tr p hp; exact Or.inl hp
  | cons e rest ih =>
    intro seen acc tr p hp
    simp only [processEntries] at hp ⊢
    split_ifs with h1 h2 h3
    · rw [if_pos h1] at hp
      exact ih _ _ _ p hp
    · rw [if_neg h1, if_pos h2] at hp
      exact ih _ _ _ p hp
    · rw [if_neg h1, if_neg h2, if_pos h3] at hp
      rcases List.mem_append.mp hp with hin | hone
      · exact Or.inl hin
      · have hpe : p = (acceptedArticle scrape slugF dryRun e, hashUrl e.url) :=
          List.mem_singleton.mp hone
        subst hpe
        exact Or.inr ⟨classifyEntry e, ⟨tr, [], by simp⟩⟩
    · rw [if_neg h1, if_neg h2, if_neg h3] at hp
      rcases ih _ _ _ p hp with hin | ⟨sub, hinf⟩
      · rcases List.mem_append.mp hin with hin2 | hone
        · exact Or.inl hin2
        · have hpe : p = (acceptedArticle scrape slugF dryRun e, hashUrl e.url) :=
            List.mem_singleton.mp hone
          subst hpe
          obtain ⟨u, hu⟩ := pe_trace_mono scrape slugF dryRun maxA rest
            (seen ++ [hashUrl e.url])
            (acc ++ [(acceptedArticle scrape slugF dryRun e, hashUrl e.url)])
            (tr ++ [Ev.classified (hashUrl e.url) (classifyEntry e), Ev.added (hashUrl e.url)])
          refine Or.inr ⟨classifyEntry e, ?_⟩
          rw [hu]
          exact ⟨tr, u, by simp⟩
      · exact Or.inr ⟨sub, hinf⟩

end ProcessEntries

/-! ## Facts about one agent invocation -/

theorem runAgent_articles (scrape slugF : String → String) (dry : Bool) (m : Nat)
    (now : String) (entries : List Entry) (st : AgentState) :
    (runAgent scrape slugF dry m now entries st).1.articles =
      (processEntries scrape slugF dry m entries (loadSeenFile st.seenFile) [] []).1 := by
  cases dry <;> rfl

theorem runAgent_seenAfter (scrape slugF : String → String) (dry : Bool) (m : Nat)
    (now : String) (entries : List Entry) (st : AgentState) :
    (runAgent scrape slugF dry m now entries st).1.seenAfter =
      (processEntries scrape slugF dry m entries (loadSeenFile st.seenFile) [] []).2.1 := by
  cases dry <;> rfl

theorem runAgent_trace (scrape slugF : String → String) (dry : Bool) (m : Nat)
    (now : String) (entries : List Entry) (st : AgentState) :
    (runAgent scrape slugF dry m now entries st).1.trace =
      (processEntries scrape slugF dry m entries (loadSeenFile st.seenFile) [] []).2.2 := by
  cases dry <;> rfl

theorem runAgent_false_written (scrape slugF : String → String) (m : Nat)
    (now : String) (entries : List Entry) (st : AgentState) :
    (runAgent scrape slugF false m now entries st).1.written =
      ((processEntries scrape slugF false m entries (loadSeenFile st.seenFile) [] []).1.map
        (fun p => (p.2, saveArticleMeta p.1 p.2))).map Prod.snd := rfl

theorem runAgent_true_written (scrape slugF : String → String) (m : Nat)
    (now : String) (entries : List Entry) (st : AgentState) :
    (runAgent scrape slugF true m now entries st).1.written = [] := rfl

theorem runAgent_true_state (scrape slugF : String → String) (m : Nat)
    (now : String) (entries : List Entry) (st : AgentState) :
    (runAgent scrape slugF true m now entries st).2 = st := rfl

theorem runAgent_false_seenFile (scrape slugF : String → String) (m : Nat)
    (now : String) (entries : List Entry) (st : AgentState) :
    (runAgent scrape slugF false m now entries st).2.seenFile =
      .parsed (some (processEntries scrape slugF false m entries
        (loadSeenFile st.seenFile) [] []).2.1) := rfl

theorem runAgent_false_dataFiles (scrape slugF : String → String) (m : Nat)
    (now : String) (entries : List Entry) (st : AgentState) :
    (runAgent scrape slugF false m now entries st).2.dataFiles =
      ((processEntries scrape slugF false m entries (loadSeenFile st.seenFile) [] []).1.map
        (fun p => (p.2, saveArticleMeta p.1 p.2))).foldl writeRecord st.dataFiles := rfl

theorem runAgent_false_savedSeen (scrape slugF : String → String) (m : Nat)
    (now : String) (entries : List Entry) (st : AgentState) :
    (runAgent scrape slugF false m now entries st).1.savedSeen =
      some ⟨(processEntries scrape slugF false m entries
        (loadSeenFile st.seenFile) [] []).2.1, now⟩ := rfl

theorem runAgent_false_index (scrape slugF : String → String) (m : Nat)
    (now : String) (entries : List Entry) (st : AgentState) :
    (runAgent scrape slugF false m now entries st).1.index =
      some (updateIndex "finante"
        ((runAgent scrape slugF false m now entries st).2.dataFiles.map Prod.snd) now).1 := rfl

theorem runAgent_new_seen (scrape slugF : String → String) (dry : Bool) (m : Nat)
    (now : String) (entries : List Entry) (st : AgentState) (fp : String)
    (h : fp ∈ loadSeenFile st.seenFile) :
    fp ∈ loadSeenFile ((runAgent scrape slugF dry m now entries st).2.seenFile) := by
  cases dry
  · rw [runAgent_false_seenFile]
    show fp ∈ dedupFirst _
    rw [mem_dedupFirst]
    exact pe_seen_mono scrape slugF false m entries _ [] [] fp h
  · exact h

theorem runAgent_written_props (scrape slugF : String → String) (dry : Bool) (m : Nat)
    (now : String) (entries : List Entry) (st : AgentState) :
    (∀ rec ∈ (runAgent scrape slugF dry m now entries st).1.written,
      rec.hash_id ∉ loadSeenFile st.seenFile ∧
      rec.hash_id ∈ loadSeenFile ((runAgent scrape slugF dry m now entries st).2.seenFile)) ∧
    (((runAgent scrape slugF dry m now entries st).1.written.map
      (fun rec => rec.hash_id)).Nodup) := by
  cases dry
  case true =>
    rw [runAgent_true_written]
    exact ⟨fun rec h => absurd h (List.not_mem_nil rec), List.nodup_nil⟩
  case false =>
    constructor
    · intro rec hrec
      rw [runAgent_false_written, List.map_map] at hrec
      rcases List.mem_map.mp hrec with ⟨p, hp, hpe⟩
      have hhash : rec.hash_id = p.2 := by rw [← hpe]; rfl
      rcases pe_articles scrape slugF false m entries _ [] [] p hp with hin | ⟨hn, hi⟩
      · cases hin
      · constructor
        · rw [hhash]; exact hn
        · rw [hhash, runAgent_false_seenFile]
          show p.2 ∈ dedupFirst _
          rw [mem_dedupFirst]
          exact hi
    · rw [runAgent_false_written, List.map_map, List.map_map]
      have hcomp : (((fun rec : ArticleRecord => rec.hash_id) ∘ Prod.snd) ∘
          (fun p : Article × String => (p.2, saveArticleMeta p.1 p.2))) =
          (Prod.snd : Article × String → String) := rfl
      rw [hcomp]
      exact pe_arts_nodup scrape slugF false m entries _ [] []
        (by simp) (by simp)

/-! ## C1 — cross-run fingerprint invariant -/

theorem runs_no_refingerprint (scrape slugF : String → String) :
    ∀ (rs : List RunSpec) (st : AgentState) (fp : String),
      fp ∈ loadSeenFile st.seenFile →
      ∀ rec ∈ (runsAgent scrape slugF st rs).2, rec.hash_id ≠ fp := by
  intro rs
  induction rs with
  | nil => intro st fp _ rec hrec; cases hrec
  | cons r rs ih =>
    intro st fp hfp rec hrec
    simp only [runsAgent] at hrec
    rcases List.mem_append.mp hrec with hhead | htail
    · intro he
      have := ((runAgent_written_props scrape slugF r.dryRun r.maxArticles r.now
        r.entries st).1 rec hhead).1
      exact this (he ▸ hfp)
    · exact ih _ fp (runAgent_new_seen scrape slugF r.dryRun r.maxArticles r.now
        r.entries st fp hfp) rec htail

theorem runs_nodup (scrape slugF : String → String) :
    ∀ (rs : List RunSpec) (st : AgentState),
      ((runsAgent scrape slugF st rs).2.map (fun rec => rec.hash_id)).Nodup := by
  intro rs
  induction rs with
  | nil => intro st; exact List.nodup_nil
  | cons r rs ih =>
    intro st
    simp only [runsAgent, List.map_append]
    rw [List.nodup_append]
    refine ⟨(runAgent_written_props scrape slugF r.dryRun r.maxArticles r.now
      r.entries st).2, ih _, ?_⟩
    intro a ha hb
    rcases List.mem_map.mp ha with ⟨rec, hrec, hreca⟩
    rcases List.mem_map.mp hb with ⟨rec2, hrec2, hrec2a⟩
    have hin : rec.hash_id ∈ loadSeenFile
        ((runAgent scrape slugF r.dryRun r.maxArticles r.now r.entries st).2.seenFile) :=
      ((runAgent_written_props scrape slugF r.dryRun r.maxArticles r.now
        r.entries st).1 rec hrec).2
    have hne := runs_no_refingerprint scrape slugF rs _ rec.hash_id hin rec2 hrec2
    exact hne (hrec2a.trans hreca.symm)

/-- C1: once a fingerprint is in the persisted fingerprint set at the start
of a run, no per-article record with that fingerprint is persisted in that
run or in any later run; moreover, the records persisted across any chain
of runs have pairwise distinct fingerprints, so no two persisted records
ever share a fingerprint. -/
theorem fingerprint_never_reprocessed (scrape slugF : String → String)
    (st : AgentState) (rs : List RunSpec) (fp : String)
    (h : fp ∈ loadSeenFile st.seenFile) :
    (∀ rec ∈ (runsAgent scrape slugF st rs).2, rec.hash_id ≠ fp) ∧
    ((runsAgent scrape slugF st rs).2.map (fun rec => rec.hash_id)).Nodup :=
  ⟨runs_no_refingerprint scrape slugF rs st fp h, runs_nodup scrape slugF rs st⟩

set_option maxRecDepth 400000 in
theorem fingerprint_never_reprocessed_witness :
    ("ecd05f97b3e7" ∈ loadSeenFile seededState.seenFile) ∧
    (∀ rec ∈ (runsAgent id id seededState
        [⟨false, 5, "T1", [entryA, entryB]⟩, ⟨false, 5, "T2", [entryA, entryB]⟩]).2,
      rec.hash_id ≠ "ecd05f97b3e7") :=
  ⟨by decide,
   (fingerprint_never_reprocessed id id seededState
      [⟨false, 5, "T1", [entryA, entryB]⟩, ⟨false, 5, "T2", [entryA, entryB]⟩]
      "ecd05f97b3e7" (by decide)).1⟩

/-! ## C2 — in-run deduplication -/


/-- C2 (amended): within one run, an entry whose fingerprint is already in
the in-memory set loaded at run start is always rejected; the accepted
entries carry pairwise distinct fingerprints, so two entries with the same
URL in one run yield at most one article; an accepted entry's fingerprint
is added to the in-memory set immediately after classification (not
before), and before any later entry is examined; and when the article cap
is not reached, every entry with nonempty title and URL ends up with its
fingerprint in the in-memory set, so being already seen is the only reason
a valid entry is rejected below the cap. -/
theorem run_dedup (scrape slugF : String → String) (dry : Bool) (m : Nat)
    (now : String) (entries : List Entry) (st : AgentState) :
    (((runAgent scrape slugF dry m now entries st).1.articles.map Prod.snd).Nodup) ∧
    (∀ fp ∈ loadSeenFile st.seenFile,
      ∀ p ∈ (runAgent scrape slugF dry m now entries st).1.articles, p.2 ≠ fp) ∧
    (∀ p ∈ (runAgent scrape slugF dry m now entries st).1.articles,
      ∃ sub, [Ev.classified p.2 sub, Ev.added p.2] <:+:
        (runAgent scrape slugF dry m now entries st).1.trace) ∧
    ((runAgent scrape slugF dry m now entries st).1.articles.length < m →
      ∀ e ∈ entries, e.title ≠ "" → e.url ≠ "" →
        hashUrl e.url ∈ (runAgent scrape slugF dry m now entries st).1.seenAfter) := by
  rw [runAgent_articles, runAgent_trace, runAgent_seenAfter]
  refine ⟨?_, ?_, ?_, ?_⟩
  · exact pe_arts_nodup scrape slugF dry m entries _ [] [] (by simp) (by simp)
  · intro fp hfp p hp he
    rcases pe_articles scrape slugF dry m entries _ [] [] p hp with hin | ⟨hn, _⟩
    · cases hin
    · exact hn (he ▸ hfp)
  · intro p hp
    rcases pe_adjacent scrape slugF dry m entries _ [] [] p hp with hin | hadj
    · cases hin
    · exact hadj
  · intro hlen e he ht hu
    exact pe_complete scrape slugF dry m entries _ [] [] hlen e he ht hu

set_option maxRecDepth 400000 in
theorem run_dedup_witness :
    ("ecd05f97b3e7" ∈ loadSeenFile seededState.seenFile) ∧
    (∀ p ∈ (runAgent id id false 5 "T1" [entryA, entryB] seededState).1.articles,
      p.2 ≠ "ecd05f97b3e7") ∧
    ((runAgent id id false 5 "T1" [entryA, entryB] seededState).1.articles.length < 5) ∧
    (∀ e ∈ [entryA, entryB], e.title ≠ "" → e.url ≠ "" →
      hashUrl e.url ∈ (runAgent id id false 5 "T1" [entryA, entryB] seededState).1.seenAfter) :=
  ⟨by decide,
   (run_dedup id id false 5 "T1" [entryA, entryB] seededState).2.1
     "ecd05f97b3e7" (by decide),
   by decide,
   (run_dedup id id false 5 "T1" [entryA, entryB] seededState).2.2.2 (by decide)⟩

set_option maxRecDepth 400000 in
/-- C2 counterexample to the claim as stated: in a run over the single
valid unseen entry `entryA`, the trace records the classification event
strictly before the fingerprint-addition event (the claim asserts the
fingerprint is added before classification); and with the article cap set
to 1, the valid entry `entryB`, whose fingerprint `a70b45ee7ee2` is not in
the empty in-memory set, is nevertheless rejected: the run accepts only the
fingerprint `ecd05f97b3e7` of `entryA`. -/
theorem run_dedup_claim_counterexample :
    (processEntries id id false 5 [entryA] [] [] []).2.2 =
      [Ev.classified "ecd05f97b3e7" "credite", Ev.added "ecd05f97b3e7"] ∧
    ((processEntries id id false 1 [entryA, entryB] [] [] []).1.map Prod.snd =
      ["ecd05f97b3e7"]) ∧
    hashUrl entryB.url = "a70b45ee7ee2" ∧
    entryB.title ≠ "" ∧ entryB.url ≠ "" ∧
    ("a70b45ee7ee2" : String) ≠ "ecd05f97b3e7" := by
  refine ⟨by decide, by decide, by decide, by decide, by decide, by decide⟩

/-! ## C7 — idempotence of a repeated run -/


/-- C7 (amended): a second non-dry run with the same upstream entries, when
the first run did not hit the article cap, accepts nothing, persists no new
record, leaves the data files unchanged, and saves a fingerprint file with
an identical hash list and a category index with identical category, total
and article list; only the `updated` timestamp fields can differ. -/
theorem second_run_no_change (scrape slugF : String → String) (m : Nat)
    (now1 now2 : String) (entries : List Entry) (st0 : AgentState)
    (r1 r2 : RunResult) (st1 st2 : AgentState)
    (h1 : runAgent scrape slugF false m now1 entries st0 = (r1, st1))
    (hcap : r1.articles.length < m)
    (h2 : runAgent scrape slugF false m now2 entries st1 = (r2, st2)) :
    r2.articles = [] ∧ r2.written = [] ∧ r2.seenAfter = r1.seenAfter ∧
    Option.map SeenJson.hashes r2.savedSeen = Option.map SeenJson.hashes r1.savedSeen ∧
    st2.dataFiles = st1.dataFiles ∧
    Option.map CategoryIndex.category r2.index = Option.map CategoryIndex.category r1.index ∧
    Option.map CategoryIndex.total r2.index = Option.map CategoryIndex.total r1.index ∧
    Option.map CategoryIndex.articles r2.index = Option.map CategoryIndex.articles r1.index := by
  have hr1 : r1 = (runAgent scrape slugF false m now1 entries st0).1 := by rw [h1]
  have hs1 : st1 = (runAgent scrape slugF false m now1 entries st0).2 := by rw [h1]
  have hr2 : r2 = (runAgent scrape slugF false m now2 entries st1).1 := by rw [h2]
  have hs2 : st2 = (runAgent scrape slugF false m now2 entries st1).2 := by rw [h2]
  -- the seen list after run 1
  have hseen1 : loadSeenFile st1.seenFile =
      (processEntries scrape slugF false m entries (loadSeenFile st0.seenFile) [] []).2.1 := by
    rw [hs1, runAgent_false_seenFile]
    show dedupFirst _ = _
    exact dedupFirst_eq_self _
      (pe_seen_nodup scrape slugF false m entries _ [] [] (loadSeenFile_nodup _))
  -- run 1 consumed every entry, so every valid entry is seen after run 1
  have hall : ∀ e ∈ entries, e.title = "" ∨ e.url = "" ∨
      hashUrl e.url ∈ loadSeenFile st1.seenFile := by
    intro e he
    by_cases ht : e.title = ""
    · exact Or.inl ht
    by_cases hu : e.url = ""
    · exact Or.inr (Or.inl hu)
    refine Or.inr (Or.inr ?_)
    rw [hseen1]
    have hlen : (processEntries scrape slugF false m entries
        (loadSeenFile st0.seenFile) [] []).1.length < m := by
      rw [← runAgent_articles scrape slugF false m now1 entries st0, ← hr1]
      exact hcap
    exact pe_complete scrape slugF false m entries _ [] [] hlen e he ht hu
  -- run 2 is inert
  have hst := pe_stasis scrape slugF false m entries (loadSeenFile st1.seenFile) [] [] hall
  have harts2 : (processEntries scrape slugF false m entries
      (loadSeenFile st1.seenFile) [] []).1 = [] := hst.1
  have hseen2 : (processEntries scrape slugF false m entries
      (loadSeenFile st1.seenFile) [] []).2.1 = loadSeenFile st1.seenFile := hst.2
  have harticles : r2.articles = [] := by
    rw [hr2, runAgent_articles, harts2]
  have hwritten : r2.written = [] := by
    rw [hr2, runAgent_false_written, harts2]
    rfl
  have hfiles : st2.dataFiles = st1.dataFiles := by
    rw [hs2, runAgent_false_dataFiles, harts2]
    rfl
  refine ⟨harticles, hwritten, ?_, ?_, hfiles, ?_, ?_, ?_⟩
  · rw [hr2, runAgent_seenAfter, hseen2, hseen1, hr1, runAgent_seenAfter]
  · rw [hr2, runAgent_false_savedSeen, hseen2, hseen1, hr1, runAgent_false_savedSeen]
    rfl
  · rw [hr2, runAgent_false_index, ← hs2, hfiles, hr1, runAgent_false_index, ← hs1]
    rfl
  · rw [hr2, runAgent_false_index, ← hs2, hfiles, hr1, runAgent_false_index, ← hs1]
    rfl
  · rw [hr2, runAgent_false_index, ← hs2, hfiles, hr1, runAgent_false_index, ← hs1]
    rfl

set_option maxRecDepth 400000 in
theorem second_run_no_change_witness :
    ((runAgent id id false 5 "T1" [entryA] emptyState).1.articles.length < 5) ∧
    (runAgent id id false 5 "T2" [entryA]
      (runAgent id id false 5 "T1" [entryA] emptyState).2).1.articles = [] ∧
    Option.map SeenJson.hashes (runAgent id id false 5 "T2" [entryA]
        (runAgent id id false 5 "T1" [entryA] emptyState).2).1.savedSeen =
      Option.map SeenJson.hashes
        (runAgent id id false 5 "T1" [entryA] emptyState).1.savedSeen ∧
    Option.map CategoryIndex.articles (runAgent id id false 5 "T2" [entryA]
        (runAgent id id false 5 "T1" [entryA] emptyState).2).1.index =
      Option.map CategoryIndex.articles
        (runAgent id id false 5 "T1" [entryA] emptyState).1.index := by
  have h := second_run_no_change id id 5 "T1" "T2" [entryA] emptyState
    (runAgent id id false 5 "T1" [entryA] emptyState).1
    (runAgent id id false 5 "T2" [entryA]
      (runAgent id id false 5 "T1" [entryA] emptyState).2).1
    (runAgent id id false 5 "T1" [entryA] emptyState).2
    (runAgent id id false 5 "T2" [entryA]
      (runAgent id id false 5 "T1" [entryA] emptyState).2).2
    rfl (by decide) rfl
  exact ⟨by decide, h.1, h.2.2.2.1, h.2.2.2.2.2.2.2⟩

set_option maxRecDepth 400000 in
/-- C7 counterexample to the claim as stated: with an unchanged feed and no
new accepted items, the persisted files written by run 2 do not equal those
written by run 1 — both the fingerprint file and the index file carry the
`updated` timestamp of their own run, so the saved objects differ even
though their hash lists and article lists agree. -/
theorem second_run_files_differ :
    (runAgent id id false 5 "2025-01-02T06:00:00Z" [entryA]
        (runAgent id id false 5 "2025-01-01T06:00:00Z" [entryA] emptyState).2).1.savedSeen ≠
      (runAgent id id false 5 "2025-01-01T06:00:00Z" [entryA] emptyState).1.savedSeen ∧
    (runAgent id id false 5 "2025-01-02T06:00:00Z" [entryA]
        (runAgent id id false 5 "2025-01-01T06:00:00Z" [entryA] emptyState).2).1.index ≠
      (runAgent id id false 5 "2025-01-01T06:00:00Z" [entryA] emptyState).1.index := by
  refine ⟨by decide, by decide⟩

end FinRo
